import Mathlib

/-!
Shallow embedding of the two scripts `process_epic_notes.py` and
`process_pathology_reports.py` and proofs about the properties of their core
logic: tab-separated parsing with header/value reconciliation, and grouping +
stable-sorted merging of pathology report fragments.

Python dictionaries are modeled as association lists in insertion order with
unique keys; Python's stable `sorted` is modeled by `List.insertionSort` with a
total preorder (Mathlib's insertion sort is stable: `orderedInsert` places the
new element before the first element it is `≼` to, hence before equals coming
from later positions).  File reading is modeled as an `Except` value, `.error`
standing for any exception raised while opening/decoding the file.  Messages
printed to stderr are modeled as explicit warning values.
-/

namespace EpicNotes

/-- A parsed record models a Python `dict[str, str]`: an association list in
key-insertion order.  Lists built by `dictInsert`/`dictOfPairs` have unique
keys, like every Python dict. -/
abbrev Record := List (String × String)

/-- Keys of a record, in order. -/
def dictKeys (m : Record) : List String := m.map Prod.fst

/-- Python `d[k] = v`: if `k` is present, update its value in place (keeping
its position); otherwise append the new binding at the end. -/
def dictInsert (m : Record) (k v : String) : Record :=
  if m.any (fun p => p.1 == k) then
    m.map (fun p => if p.1 == k then (k, v) else p)
  else m ++ [(k, v)]

/-- Python `d.get(k, default)`. -/
def dictGet (m : Record) (k d : String) : String := (m.lookup k).getD d

/-- Python `d.pop(k, None)`: remove the binding for `k` when present. -/
def dictPop (m : Record) (k : String) : Record := m.filter (fun p => !(p.1 == k))

/-- Helper for `dictOfPairs`: insert the pairs left to right. -/
def dictFold (m : Record) : List (String × String) → Record
  | [] => m
  | p :: ps => dictFold (dictInsert m p.1 p.2) ps

/-- Python `dict(zip(headers, values))`: pairs are inserted left to right, so a
later duplicate key silently overwrites the earlier value (keeping the first
occurrence's position). -/
def dictOfPairs (ps : List (String × String)) : Record := dictFold [] ps

/-- ASCII whitespace as recognized by Python's `str.strip()` (the model is
restricted to the ASCII whitespace characters). -/
def isPySpace (c : Char) : Bool :=
  c == ' ' || c == '\t' || c == '\n' || c == '\r' || c == '\x0b' || c == '\x0c'

/-- Python `str.strip()` (over ASCII whitespace): drop leading and trailing
whitespace characters. -/
def pyStrip (s : String) : String :=
  String.mk (((s.toList.dropWhile isPySpace).reverse.dropWhile isPySpace).reverse)

/-- ASCII decimal digit. -/
def isDigitChar (c : Char) : Bool := '0' ≤ c && c ≤ '9'

/-- Split a character list on a separator character, keeping empty pieces:
the semantics of Python's `str.split(sep)` for a one-character separator. -/
def splitChar (c : Char) : List Char → List (List Char)
  | [] => [[]]
  | ch :: cs =>
    let rest := splitChar c cs
    if ch == c then [] :: rest
    else
      match rest with
      | g :: gs => (ch :: g) :: gs
      | [] => [[ch]]

/-- Python `line.split('\t')` on an already-stripped line. -/
def splitTab (s : String) : List String := (splitChar '\t' s.toList).map String.mk

/-- Numeric value of a digit string. -/
def digitsToNat (cs : List Char) : Nat := cs.foldl (fun n c => n * 10 + (c.toNat - 48)) 0

/-- Python `int(s)` on a string: strip whitespace, allow one optional sign,
then digits with single underscores between digit groups; `none` models the
`ValueError` raised on any other shape. -/
def pyInt (s : String) : Option Int :=
  let cs := (pyStrip s).toList
  let sign : Int := match cs with
    | '-' :: _ => -1
    | _ => 1
  let body : List Char := match cs with
    | '+' :: r => r
    | '-' :: r => r
    | r => r
  let groups := splitChar '_' body
  if groups.all (fun g => !g.isEmpty && g.all isDigitChar) then
    some (sign * (digitsToNat groups.flatten : Int))
  else
    none

/-- Diagnostics that `parse_note_file` prints to stderr. -/
inductive ParseWarning where
  /-- Printed when the file has fewer than 2 lines (source line 31). -/
  | tooFewLines : ParseWarning
  /-- Printed when a data row's value count differs from the header count
  (source line 48): carries the 1-based line number, the header count and the
  row's value count. -/
  | countMismatch (lineNum nheaders nvalues : Nat) : ParseWarning
  /-- Printed by the `except` handler when reading the file raised. -/
  | readError (msg : String) : ParseWarning
deriving DecidableEq

/-- Reconciliation of a row's value count against the header count (source
lines 47-55): right-pad with empty strings when too few, truncate extras when
too many, leave matching rows unchanged. -/
def reconcile (headers values : List String) : List String :=
  if headers.length != values.length then
    if values.length < headers.length then
      values ++ List.replicate (headers.length - values.length) ""
    else
      values.take headers.length
  else values

/-- The data-row loop of `parse_note_file` (source lines 39-58): skip blank
lines, split the stripped line on tabs, reconcile the value count against the
header count with a warning on mismatch, and zip into a record.  `lineNum` is
the 1-based number of the first line of the list. -/
def parseRows (headers : List String) : List String → Nat → List Record × List ParseWarning
  | [], _ => ([], [])
  | line :: rest, lineNum =>
    let s := parseRows headers rest (lineNum + 1)
    if (pyStrip line).isEmpty then s
    else
      let values := splitTab (pyStrip line)
      let warns :=
        if headers.length != values.length then
          ParseWarning.countMismatch lineNum headers.length values.length :: s.2
        else s.2
      (dictOfPairs (headers.zip (reconcile headers values)) :: s.1, warns)

/-- The function `parse_note_file` (identical in both scripts).  The file read
is modeled as an `Except`: `.ok lines` is the result of `readlines()`, while
`.error e` stands for any exception raised while reading/decoding the file,
which the function's `except` handler converts into a warning and the empty
record list.  Returns the records with the warnings printed to stderr. -/
def parse_note_file (contents : Except String (List String)) :
    List Record × List ParseWarning :=
  match contents with
  | .error e => ([], [.readError e])
  | .ok lines =>
    match lines with
    | l0 :: l1 :: rest =>
      let headers := splitTab (pyStrip l0)
      parseRows headers (l1 :: rest) 2
    | _ => ([], [.tooFewLines])

/-- The function `process_directory`: parse each file in (already sorted)
order and extend the accumulated record list with each file's records. -/
def process_directory (files : List (Except String (List String))) : List Record :=
  files.foldl (fun acc f => acc ++ (parse_note_file f).1) []

/-- The grouping key of `merge_pathology_records` (source lines 113-119):
missing fields default to the empty string. -/
abbrev GroupKey := String × String × String × String × String

/-- The grouping key of one record. -/
def groupKey (record : Record) : GroupKey :=
  (dictGet record "MRN" "",
   dictGet record "date" "",
   dictGet record "LabOrderEpicId" "",
   dictGet record "CaseName" "",
   dictGet record "SpecimenSource" "")

/-- One step of the grouping loop: `grouped[key].append(record)` on a
`defaultdict(list)`, keeping groups in first-seen key order. -/
def addToGroup (grouped : List (GroupKey × List Record)) (record : Record) :
    List (GroupKey × List Record) :=
  if grouped.any (fun p => p.1 == groupKey record) then
    grouped.map (fun p => if p.1 == groupKey record then (p.1, p.2 ++ [record]) else p)
  else grouped ++ [(groupKey record, [record])]

/-- The grouping loop of `merge_pathology_records` (source lines 109-120),
generalized over the accumulator. -/
def groupRecordsAux (grouped : List (GroupKey × List Record)) :
    List Record → List (GroupKey × List Record)
  | [] => grouped
  | r :: rs => groupRecordsAux (addToGroup grouped r) rs

/-- The grouped records, in first-seen key order (Python dict iteration order
is key-insertion order). -/
def groupRecords (records : List Record) : List (GroupKey × List Record) :=
  groupRecordsAux [] records

/-- The function `sort_key` (source lines 133-139): parse the two
concatenation fields as integers (a missing field defaults to the string "0");
if either fails to parse, the whole key collapses to `(0, 0)`. -/
def sort_key (record : Record) : Int × Int :=
  match pyInt (dictGet record "ConcatenationLine" "0"),
        pyInt (dictGet record "ConcatenationSubLine" "0") with
  | some line, some subline => (line, subline)
  | _, _ => (0, 0)

/-- Lexicographic `≤` on key pairs: how Python compares the `(line, subline)`
tuples returned by `sort_key`. -/
def tupLe (p q : Int × Int) : Prop := p.1 < q.1 ∨ (p.1 = q.1 ∧ p.2 ≤ q.2)

instance : DecidableRel tupLe := fun p q => by unfold tupLe; exact inferInstance

/-- Strict lexicographic `<` on key pairs. -/
def tupLt (p q : Int × Int) : Prop := p.1 < q.1 ∨ (p.1 = q.1 ∧ p.2 < q.2)

instance : DecidableRel tupLt := fun p q => by unfold tupLt; exact inferInstance

/-- The total preorder on records induced by `sort_key`. -/
def recLe (a b : Record) : Prop := tupLe (sort_key a) (sort_key b)

instance : DecidableRel recLe := fun a b => by unfold recLe; exact inferInstance

instance : IsTotal Record recLe :=
  ⟨by intro a b; unfold recLe tupLe; omega⟩

instance : IsTrans Record recLe :=
  ⟨by intro a b c; unfold recLe tupLe; omega⟩

/-- Python `sorted(group, key=sort_key)`: a stable sort by the key tuple. -/
def pySorted (group : List Record) : List Record := List.insertionSort recLe group

/-- The body of the merge loop for one group (source lines 132-152): sort the
group stably by `sort_key`, copy the first record, replace its ValueText by the
newline-join of every member's ValueText, and remove the two concatenation
fields.  The caller only runs this on nonempty groups, so `headD []` models
`sorted_group[0]`. -/
def mergeGroup (group : List Record) : Record :=
  let sorted_group := pySorted group
  let base := sorted_group.headD []
  let value_texts := sorted_group.map (fun r => dictGet r "ValueText" "")
  let withText := dictInsert base "ValueText" (String.intercalate "\n" value_texts)
  dictPop (dictPop withText "ConcatenationLine") "ConcatenationSubLine"

/-- The function `merge_pathology_records` (source lines 95-156): group, then
merge each nonempty group (the `if not group: continue` defensive check). -/
def merge_pathology_records (records : List Record) : List Record :=
  (groupRecords records).filterMap
    (fun p => if p.2.isEmpty then none else some (mergeGroup p.2))

/-- Keys of the groups the defensive empty-group check would warn about
(source line 129); this is the only per-record diagnostic site in the merge. -/
def merge_warnings (records : List Record) : List GroupKey :=
  ((groupRecords records).filter (fun p => p.2.isEmpty)).map Prod.fst

/-- Outcome of the tail of `main` after the records have been produced. -/
inductive MainResult where
  /-- Printed "No records to write. Exiting." and called `sys.exit(1)` before
  any output file was opened. -/
  | exitNoRecords : MainResult
  /-- Unsupported output extension: `sys.exit(1)`. -/
  | exitBadExt (ext : String) : MainResult
  /-- Wrote the records as CSV. -/
  | wroteCsv (records : List Record) : MainResult
  /-- Wrote the records as JSON (pretty or compact). -/
  | wroteJson (records : List Record) (pretty : Bool) : MainResult
deriving DecidableEq

/-- Tail of `main` in `process_pathology_reports.py` (source lines 265-283):
exit on an empty record list, optionally merge, then dispatch on the output
extension (already lowercased). -/
def mainPathology (records : List Record) (noMerge : Bool) (ext : String)
    (compact : Bool) : MainResult :=
  if records.isEmpty then .exitNoRecords
  else
    let recs := if !noMerge then merge_pathology_records records else records
    if ext == ".csv" then .wroteCsv recs
    else if ext == ".json" then .wroteJson recs (!compact)
    else .exitBadExt ext

/-- Tail of `main` in `process_epic_notes.py` (source lines 191-205). -/
def mainEpic (records : List Record) (ext : String) (compact : Bool) : MainResult :=
  if records.isEmpty then .exitNoRecords
  else
    if ext == ".csv" then .wroteCsv records
    else if ext == ".json" then .wroteJson records (!compact)
    else .exitBadExt ext

/-- Whether a `MainResult` wrote an output file. -/
def writesOutput : MainResult → Bool
  | .wroteCsv _ => true
  | .wroteJson _ _ => true
  | _ => false

/-! ### Lemmas about the dictionary model -/

lemma lookup_append (l₁ l₂ : Record) (k : String) :
    (l₁ ++ l₂).lookup k = (l₁.lookup k).or (l₂.lookup k) := by
  induction l₁ with
  | nil => simp
  | cons p l ih =>
    obtain ⟨a, b⟩ := p
    by_cases h : k = a
    · subst h; simp [List.lookup_cons]
    · simp [List.lookup_cons, beq_false_of_ne h, ih]

lemma lookup_eq_none_iff (m : Record) (k : String) :
    m.lookup k = none ↔ k ∉ dictKeys m := by
  induction m with
  | nil => simp [dictKeys]
  | cons p l ih =>
    obtain ⟨a, b⟩ := p
    by_cases h : k = a
    · subst h; simp [List.lookup_cons, dictKeys]
    · simp [List.lookup_cons, beq_false_of_ne h, dictKeys, h, ih, dictKeys]

lemma lookup_isSome_iff (m : Record) (k : String) :
    (m.lookup k).isSome = true ↔ k ∈ dictKeys m := by
  rw [← not_iff_not, Option.not_isSome_iff_eq_none, lookup_eq_none_iff]

@[simp] lemma dictKeys_nil : dictKeys [] = [] := rfl

@[simp] lemma dictKeys_cons (p : String × String) (l : Record) :
    dictKeys (p :: l) = p.1 :: dictKeys l := rfl

@[simp] lemma dictKeys_append (l₁ l₂ : Record) :
    dictKeys (l₁ ++ l₂) = dictKeys l₁ ++ dictKeys l₂ := by
  simp [dictKeys]

lemma any_key_iff (m : Record) (k : String) :
    (m.any (fun p => p.1 == k)) = true ↔ k ∈ dictKeys m := by
  rw [List.any_eq_true, dictKeys]
  constructor
  · rintro ⟨p, hp, he⟩
    exact (beq_iff_eq.mp he) ▸ List.mem_map_of_mem Prod.fst hp
  · rintro hk
    obtain ⟨p, hp, he⟩ := List.mem_map.mp hk
    exact ⟨p, hp, beq_iff_eq.mpr he⟩

lemma lookup_map_update_self (m : Record) (k v : String) (h : k ∈ dictKeys m) :
    (m.map (fun p => if p.1 == k then (k, v) else p)).lookup k = some v := by
  induction m with
  | nil => simp at h
  | cons p l ih =>
    obtain ⟨a, b⟩ := p
    simp only [beq_iff_eq] at ih ⊢
    by_cases ha : a = k
    · subst ha; simp [List.lookup_cons]
    · have hl : k ∈ dictKeys l := by
        rcases List.mem_cons.mp (by simpa using h) with h1 | h2
        · exact absurd h1.symm ha
        · exact h2
      simp [List.lookup_cons, ha, beq_false_of_ne (Ne.symm ha), ih hl]

lemma lookup_map_update_ne (m : Record) (k v k' : String) (h : k' ≠ k) :
    (m.map (fun p => if p.1 == k then (k, v) else p)).lookup k' = m.lookup k' := by
  induction m with
  | nil => simp
  | cons p l ih =>
    obtain ⟨a, b⟩ := p
    simp only [beq_iff_eq] at ih ⊢
    by_cases ha : a = k
    · subst ha; simp [List.lookup_cons, beq_false_of_ne h, ih]
    · by_cases hk' : k' = a
      · subst hk'; simp [List.lookup_cons, ha]
      · simp [List.lookup_cons, ha, beq_false_of_ne hk', ih]

lemma lookup_dictInsert_self (m : Record) (k v : String) :
    (dictInsert m k v).lookup k = some v := by
  unfold dictInsert
  by_cases h : (m.any (fun p => p.1 == k)) = true
  · rw [if_pos h]
    exact lookup_map_update_self m k v ((any_key_iff m k).mp h)
  · rw [if_neg h]
    have hnone : m.lookup k = none := by
      rw [lookup_eq_none_iff]
      exact fun hk => h ((any_key_iff m k).mpr hk)
    simp [lookup_append, hnone, List.lookup_cons]

lemma lookup_dictInsert_ne (m : Record) (k v k' : String) (h : k' ≠ k) :
    (dictInsert m k v).lookup k' = m.lookup k' := by
  unfold dictInsert
  by_cases hc : (m.any (fun p => p.1 == k)) = true
  · rw [if_pos hc]
    exact lookup_map_update_ne m k v k' h
  · rw [if_neg hc]
    simp [lookup_append, List.lookup_cons, beq_false_of_ne h]

lemma lookup_dictPop_self (m : Record) (k : String) :
    (dictPop m k).lookup k = none := by
  rw [lookup_eq_none_iff]
  intro hk
  obtain ⟨p, hp, he⟩ := List.mem_map.mp hk
  have := List.of_mem_filter hp
  simp [he] at this

lemma lookup_dictPop_ne (m : Record) (k k' : String) (h : k' ≠ k) :
    (dictPop m k).lookup k' = m.lookup k' := by
  unfold dictPop
  induction m with
  | nil => simp
  | cons p l ih =>
    obtain ⟨a, b⟩ := p
    by_cases ha : a = k
    · subst ha
      simp [List.lookup_cons, beq_false_of_ne h, ih]
    · by_cases hk' : k' = a
      · subst hk'; simp [List.filter_cons, beq_false_of_ne ha, List.lookup_cons]
      · simp [List.filter_cons, beq_false_of_ne ha, List.lookup_cons,
          beq_false_of_ne hk', ih]

lemma lookup_dictFold (ps : List (String × String)) (m : Record) (k : String) :
    (dictFold m ps).lookup k = (ps.reverse.lookup k).or (m.lookup k) := by
  induction ps generalizing m with
  | nil => simp [dictFold]
  | cons p ps ih =>
    obtain ⟨a, b⟩ := p
    rw [dictFold, ih, List.reverse_cons, lookup_append]
    by_cases h : k = a
    · subst h
      cases hps : List.lookup k ps.reverse <;>
        simp [List.lookup_cons, lookup_dictInsert_self]
    · cases hps : List.lookup k ps.reverse <;>
        simp [List.lookup_cons, beq_false_of_ne h, lookup_dictInsert_ne _ _ _ _ h]

lemma lookup_dictOfPairs (ps : List (String × String)) (k : String) :
    (dictOfPairs ps).lookup k = ps.reverse.lookup k := by
  rw [dictOfPairs, lookup_dictFold]
  cases h : List.lookup k ps.reverse <;> simp

lemma dictKeys_dictInsert (m : Record) (k v : String) :
    dictKeys (dictInsert m k v) =
      if k ∈ dictKeys m then dictKeys m else dictKeys m ++ [k] := by
  unfold dictInsert
  by_cases h : k ∈ dictKeys m
  · rw [if_pos ((any_key_iff m k).mpr h), if_pos h]
    unfold dictKeys
    rw [List.map_map]
    apply List.map_congr_left
    intro p _
    by_cases hpk : p.1 = k
    · simp [hpk]
    · simp [hpk]
  · rw [if_neg (fun hc => h ((any_key_iff m k).mp hc)), if_neg h]
    simp

lemma nodup_dictKeys_dictInsert (m : Record) (k v : String)
    (h : (dictKeys m).Nodup) : (dictKeys (dictInsert m k v)).Nodup := by
  rw [dictKeys_dictInsert]
  by_cases hk : k ∈ dictKeys m
  · simpa [hk] using h
  · rw [if_neg hk]
    exact List.Nodup.append h (List.nodup_singleton k)
      (fun a ha hb => hk ((by simpa using hb : a = k) ▸ ha))

lemma dictKeys_dictPop (m : Record) (k : String) :
    dictKeys (dictPop m k) = (dictKeys m).filter (fun x => !(x == k)) := by
  unfold dictPop dictKeys
  induction m with
  | nil => simp
  | cons p l ih =>
    by_cases h : p.1 = k
    · simp [List.filter_cons, h, ih]
    · simp [List.filter_cons, h, beq_false_of_ne h, ih]

lemma nodup_dictKeys_dictPop (m : Record) (k : String)
    (h : (dictKeys m).Nodup) : (dictKeys (dictPop m k)).Nodup := by
  rw [dictKeys_dictPop]
  exact h.filter _

lemma lookup_nodup_unique (m : Record) (k v : String)
    (hnd : (dictKeys m).Nodup) (h : m.lookup k = some v) :
    ∀ p ∈ m, p.1 = k → p.2 = v := by
  induction m with
  | nil => simp
  | cons q l ih =>
    obtain ⟨a, b⟩ := q
    obtain ⟨hna, hnl⟩ := List.nodup_cons.mp (by simpa using hnd)
    intro p hp hpk
    rcases List.mem_cons.mp hp with hph | hpl
    · subst hph
      simp only at hpk
      subst hpk
      simpa [List.lookup_cons] using h
    · by_cases ha : a = k
      · exfalso
        subst ha
        exact hna (hpk ▸ List.mem_map_of_mem Prod.fst hpl)
      · have h' : l.lookup k = some v := by
          simpa [List.lookup_cons, beq_false_of_ne (Ne.symm ha)] using h
        exact ih hnl h' p hpl hpk

lemma map_update_eq_self (l : Record) (k v : String)
    (h : ∀ p ∈ l, p.1 = k → p.2 = v) :
    l.map (fun p => if p.1 == k then (k, v) else p) = l := by
  induction l with
  | nil => rfl
  | cons p rest ih =>
    obtain ⟨a, b⟩ := p
    have ihr := ih (fun q hq hqk => h q (List.mem_cons_of_mem _ hq) hqk)
    simp only [beq_iff_eq] at ihr
    by_cases ha : a = k
    · have hb : b = v := h (a, b) (List.mem_cons_self _ _) ha
      subst ha hb
      simp [ihr]
    · simp [ha, ihr]

lemma dictInsert_eq_self (m : Record) (k v : String)
    (hnd : (dictKeys m).Nodup) (h : m.lookup k = some v) :
    dictInsert m k v = m := by
  unfold dictInsert
  have hk : k ∈ dictKeys m := (lookup_isSome_iff m k).mp (by simp [h])
  rw [if_pos ((any_key_iff m k).mpr hk)]
  exact map_update_eq_self m k v (lookup_nodup_unique m k v hnd h)

lemma dictPop_eq_self (m : Record) (k : String) (h : m.lookup k = none) :
    dictPop m k = m := by
  unfold dictPop
  rw [List.filter_eq_self]
  intro p hp
  rw [lookup_eq_none_iff] at h
  simp only [Bool.not_eq_true', beq_eq_false_iff_ne]
  intro hpk
  exact h (hpk ▸ List.mem_map_of_mem Prod.fst hp)

/-- Looking a key up in the reversed zip finds the value at the key's last
occurrence among the headers. -/
lemma lookup_zip_reverse_last (hs vs : List String) (i : Nat) (n : String)
    (hlen : hs.length = vs.length) (hi : hs.get? i = some n)
    (hlast : ∀ j, i < j → hs.get? j ≠ some n) :
    (hs.zip vs).reverse.lookup n = vs.get? i := by
  induction hs generalizing vs i with
  | nil => simp at hi
  | cons h hs ih =>
    cases vs with
    | nil => simp at hlen
    | cons v vs =>
      have hlen' : hs.length = vs.length := by simpa using hlen
      cases i with
      | zero =>
        have hn : h = n := by simpa using hi
        subst hn
        have hnot : h ∉ hs := by
          intro hmem
          obtain ⟨j, hj⟩ := List.mem_iff_get?.mp hmem
          exact hlast (j + 1) (Nat.succ_pos j) (by simpa using hj)
        rw [List.zip_cons_cons, List.reverse_cons, lookup_append]
        have hnone : (hs.zip vs).reverse.lookup h = none := by
          rw [lookup_eq_none_iff]
          unfold dictKeys
          rw [List.map_reverse, List.map_fst_zip _ _ (le_of_eq hlen')]
          simpa using hnot
        simp [hnone, List.lookup_cons]
      | succ i =>
        have hi' : hs.get? i = some n := by simpa using hi
        have hlast' : ∀ j, i < j → hs.get? j ≠ some n := by
          intro j hj hc
          exact hlast (j + 1) (by omega) (by simpa using hc)
        rw [List.zip_cons_cons, List.reverse_cons, lookup_append,
          ih vs i hlen' hi' hlast']
        have hil : i < vs.length := by
          obtain ⟨hlt, -⟩ := List.get?_eq_some.mp hi'
          omega
        obtain ⟨w, hw⟩ : ∃ w, vs.get? i = some w := ⟨_, List.get?_eq_get hil⟩
        rw [List.get?_eq_getElem?] at hw
        simp [hw]

/-! ### Lemmas about the parser -/

lemma dictKeys_dictOfPairs_mem (ps : List (String × String)) (k : String) :
    k ∈ dictKeys (dictOfPairs ps) ↔ k ∈ ps.map Prod.fst := by
  rw [← lookup_isSome_iff, lookup_dictOfPairs, lookup_isSome_iff]
  unfold dictKeys
  rw [List.map_reverse, List.mem_reverse]

lemma reconcile_length (headers values : List String) :
    (reconcile headers values).length = headers.length := by
  unfold reconcile
  by_cases h : headers.length = values.length
  · simp [h]
  · simp only [bne_iff_ne, ne_eq, h, not_false_eq_true, if_true]
    by_cases hlt : values.length < headers.length
    · simp [hlt]
      omega
    · simp [hlt]
      omega

lemma reconcile_of_eq (headers values : List String)
    (h : values.length = headers.length) : reconcile headers values = values := by
  simp [reconcile, h]

lemma reconcile_of_lt (headers values : List String)
    (h : values.length < headers.length) :
    reconcile headers values =
      values ++ List.replicate (headers.length - values.length) "" := by
  have hne : headers.length ≠ values.length := by omega
  simp [reconcile, hne, h]

lemma reconcile_of_gt (headers values : List String)
    (h : headers.length < values.length) :
    reconcile headers values = values.take headers.length := by
  have hne : headers.length ≠ values.length := by omega
  simp [reconcile, hne, Nat.not_lt_of_lt h]

/-- On rows whose value count matches the header count, the row loop keeps one
record per non-blank line, in order, and prints no warning. -/
lemma parseRows_wellFormed (headers : List String) (lines : List String) (num : Nat)
    (h : ∀ line ∈ lines, (pyStrip line).isEmpty = false →
      (splitTab (pyStrip line)).length = headers.length) :
    parseRows headers lines num =
      ((lines.filter (fun l => !(pyStrip l).isEmpty)).map
        (fun line => dictOfPairs (headers.zip (splitTab (pyStrip line)))), []) := by
  induction lines generalizing num with
  | nil => simp [parseRows]
  | cons line rest ih =>
    have ihr := ih (num + 1) (fun l hl hb => h l (List.mem_cons_of_mem _ hl) hb)
    rw [parseRows]
    cases hb : (pyStrip line).isEmpty with
    | true => simp [hb, ihr, List.filter_cons]
    | false =>
      have hc := h line (List.mem_cons_self _ _) hb
      simp [hb, ihr, List.filter_cons, hc, reconcile_of_eq headers _ hc]

/-- Every non-blank line of the block contributes its (reconciled) record, and
on a count mismatch a warning for that line is among the printed warnings. -/
lemma parseRows_mem (headers : List String) (lines : List String) (num : Nat)
    (line : String) (hmem : line ∈ lines) (hnb : (pyStrip line).isEmpty = false) :
    dictOfPairs (headers.zip (reconcile headers (splitTab (pyStrip line))))
      ∈ (parseRows headers lines num).1 ∧
    (headers.length ≠ (splitTab (pyStrip line)).length →
      ∃ ln, ParseWarning.countMismatch ln headers.length
        (splitTab (pyStrip line)).length ∈ (parseRows headers lines num).2) := by
  induction lines generalizing num with
  | nil => simp at hmem
  | cons l rest ih =>
    rcases List.mem_cons.mp hmem with hl | hl
    · subst hl
      rw [parseRows]
      simp only [hnb]
      constructor
      · simp
      · intro hmm
        refine ⟨num, ?_⟩
        simp [bne_iff_ne, hmm]
    · have ihr := ih (num + 1) hl
      rw [parseRows]
      cases hb : (pyStrip l).isEmpty with
      | true => simpa [hb] using ihr
      | false =>
        refine ⟨List.mem_cons_of_mem _ ihr.1, fun hmm => ?_⟩
        obtain ⟨ln, hln⟩ := ihr.2 hmm
        refine ⟨ln, ?_⟩
        by_cases heq : headers.length = (splitTab (pyStrip l)).length
        · have hcond : (headers.length != (splitTab (pyStrip l)).length) = false := by
            simp [bne_iff_ne, heq]
          simpa [hb, hcond] using hln
        · have hcond : (headers.length != (splitTab (pyStrip l)).length) = true := by
            simp [bne_iff_ne, heq]
          simp only [hb, Bool.false_eq_true, if_false, hcond, if_true]
          exact List.mem_cons_of_mem _ hln

/-! ### Lemmas about grouping -/

lemma any_groupkey_iff (g : List (GroupKey × List Record)) (k : GroupKey) :
    (g.any (fun p => p.1 == k)) = true ↔ k ∈ g.map Prod.fst := by
  rw [List.any_eq_true]
  constructor
  · rintro ⟨p, hp, he⟩
    exact (beq_iff_eq.mp he) ▸ List.mem_map_of_mem Prod.fst hp
  · intro hk
    obtain ⟨p, hp, he⟩ := List.mem_map.mp hk
    exact ⟨p, hp, beq_iff_eq.mpr he⟩

lemma addToGroup_fst (g : List (GroupKey × List Record)) (r : Record) :
    (addToGroup g r).map Prod.fst =
      if groupKey r ∈ g.map Prod.fst then g.map Prod.fst
      else g.map Prod.fst ++ [groupKey r] := by
  unfold addToGroup
  by_cases h : groupKey r ∈ g.map Prod.fst
  · rw [if_pos ((any_groupkey_iff g (groupKey r)).mpr h), if_pos h, List.map_map]
    apply List.map_congr_left
    intro p _
    by_cases hp : p.1 = groupKey r
    · simp [hp]
    · simp [hp]
  · rw [if_neg (fun hc => h ((any_groupkey_iff g (groupKey r)).mp hc)), if_neg h]
    simp

lemma addToGroup_fst_nodup (g : List (GroupKey × List Record)) (r : Record)
    (h : (g.map Prod.fst).Nodup) : ((addToGroup g r).map Prod.fst).Nodup := by
  rw [addToGroup_fst]
  by_cases hk : groupKey r ∈ g.map Prod.fst
  · simpa [hk] using h
  · rw [if_neg hk]
    exact List.Nodup.append h (List.nodup_singleton _)
      (fun a ha hb => hk ((by simpa using hb : a = groupKey r) ▸ ha))

lemma addToGroup_members (g : List (GroupKey × List Record)) (r : Record)
    (h : ∀ p ∈ g, ∀ x ∈ p.2, groupKey x = p.1) :
    ∀ p ∈ addToGroup g r, ∀ x ∈ p.2, groupKey x = p.1 := by
  unfold addToGroup
  by_cases hc : (g.any fun p => p.1 == groupKey r) = true
  · rw [if_pos hc]
    intro p hp x hx
    obtain ⟨q, hq, he⟩ := List.mem_map.mp hp
    by_cases hqk : q.1 = groupKey r
    · rw [if_pos (by simpa using hqk)] at he
      subst he
      simp only at hx ⊢
      rcases List.mem_append.mp hx with hx | hx
      · exact h q hq x hx
      · have : x = r := by simpa using hx
        subst this
        exact hqk.symm
    · rw [if_neg (by simpa using hqk)] at he
      subst he
      exact h q hq x hx
  · rw [if_neg hc]
    intro p hp x hx
    rcases List.mem_append.mp hp with hp | hp
    · exact h p hp x hx
    · have hpe : p = (groupKey r, [r]) := by simpa using hp
      subst hpe
      have : x = r := by simpa using hx
      subst this
      rfl

lemma addToGroup_nonempty (g : List (GroupKey × List Record)) (r : Record)
    (h : ∀ p ∈ g, p.2 ≠ []) :
    ∀ p ∈ addToGroup g r, p.2 ≠ [] := by
  unfold addToGroup
  by_cases hc : (g.any fun p => p.1 == groupKey r) = true
  · rw [if_pos hc]
    intro p hp
    obtain ⟨q, hq, he⟩ := List.mem_map.mp hp
    by_cases hqk : q.1 = groupKey r
    · rw [if_pos (by simpa using hqk)] at he
      subst he
      simp
    · rw [if_neg (by simpa using hqk)] at he
      subst he
      exact h q hq
  · rw [if_neg hc]
    intro p hp
    rcases List.mem_append.mp hp with hp | hp
    · exact h p hp
    · have hpe : p = (groupKey r, [r]) := by simpa using hp
      subst hpe
      simp

lemma flatten_map_update (g : List (GroupKey × List Record)) (k : GroupKey) (r : Record)
    (hnd : (g.map Prod.fst).Nodup) (hk : k ∈ g.map Prod.fst) :
    List.Perm ((g.map (fun p => if p.1 == k then (p.1, p.2 ++ [r]) else p)).map
      Prod.snd).flatten ((g.map Prod.snd).flatten ++ [r]) := by
  simp only [beq_iff_eq]
  induction g with
  | nil => simp at hk
  | cons q rest ih =>
    obtain ⟨a, gr⟩ := q
    rw [List.map_cons] at hnd hk
    obtain ⟨hna, hnr⟩ := List.nodup_cons.mp hnd
    by_cases ha : a = k
    · subst ha
      have hrest : rest.map (fun p => if p.1 = a then (p.1, p.2 ++ [r]) else p) = rest := by
        conv_rhs => rw [← List.map_id rest]
        apply List.map_congr_left
        intro p hp
        have hpa : p.1 ≠ a := by
          intro hx
          apply hna
          show a ∈ List.map Prod.fst rest
          rw [← hx]
          exact List.mem_map_of_mem Prod.fst hp
        simp [hpa]
      have hmap : ((a, gr) :: rest).map (fun p => if p.1 = a then (p.1, p.2 ++ [r]) else p)
          = (a, gr ++ [r]) :: rest := by
        rw [List.map_cons, hrest]
        simp
      rw [hmap]
      simp only [List.map_cons, List.flatten_cons, List.append_assoc]
      exact List.Perm.append_left gr List.perm_append_comm
    · have hk' : k ∈ rest.map Prod.fst := by
        rcases List.mem_cons.mp hk with h1 | h1
        · exact absurd h1.symm ha
        · exact h1
      have ihr := ih hnr hk'
      have hmap : ((a, gr) :: rest).map (fun p => if p.1 = k then (p.1, p.2 ++ [r]) else p)
          = (a, gr) :: rest.map (fun p => if p.1 = k then (p.1, p.2 ++ [r]) else p) := by
        rw [List.map_cons]
        simp [ha]
      rw [hmap]
      simp only [List.map_cons, List.flatten_cons, List.append_assoc]
      exact List.Perm.append_left gr ihr

lemma addToGroup_flatten_perm (g : List (GroupKey × List Record)) (r : Record)
    (hnd : (g.map Prod.fst).Nodup) :
    List.Perm ((addToGroup g r).map Prod.snd).flatten
      ((g.map Prod.snd).flatten ++ [r]) := by
  unfold addToGroup
  by_cases h : groupKey r ∈ g.map Prod.fst
  · rw [if_pos ((any_groupkey_iff g (groupKey r)).mpr h)]
    exact flatten_map_update g (groupKey r) r hnd h
  · rw [if_neg (fun hc => h ((any_groupkey_iff g (groupKey r)).mp hc))]
    simp

lemma groupRecordsAux_fst_nodup (rs : List Record) (g : List (GroupKey × List Record))
    (h : (g.map Prod.fst).Nodup) : ((groupRecordsAux g rs).map Prod.fst).Nodup := by
  induction rs generalizing g with
  | nil => simpa [groupRecordsAux] using h
  | cons r rs ih =>
    rw [groupRecordsAux]
    exact ih _ (addToGroup_fst_nodup g r h)

lemma groupRecordsAux_members (rs : List Record) (g : List (GroupKey × List Record))
    (h : ∀ p ∈ g, ∀ x ∈ p.2, groupKey x = p.1) :
    ∀ p ∈ groupRecordsAux g rs, ∀ x ∈ p.2, groupKey x = p.1 := by
  induction rs generalizing g with
  | nil => simpa [groupRecordsAux] using h
  | cons r rs ih =>
    rw [groupRecordsAux]
    exact ih _ (addToGroup_members g r h)

lemma groupRecordsAux_nonempty (rs : List Record) (g : List (GroupKey × List Record))
    (h : ∀ p ∈ g, p.2 ≠ []) : ∀ p ∈ groupRecordsAux g rs, p.2 ≠ [] := by
  induction rs generalizing g with
  | nil => simpa [groupRecordsAux] using h
  | cons r rs ih =>
    rw [groupRecordsAux]
    exact ih _ (addToGroup_nonempty g r h)

lemma groupRecordsAux_flatten_perm (rs : List Record) (g : List (GroupKey × List Record))
    (h : (g.map Prod.fst).Nodup) :
    List.Perm ((groupRecordsAux g rs).map Prod.snd).flatten
      ((g.map Prod.snd).flatten ++ rs) := by
  induction rs generalizing g with
  | nil => simp [groupRecordsAux]
  | cons r rs ih =>
    rw [groupRecordsAux]
    have h1 := ih _ (addToGroup_fst_nodup g r h)
    have h2 := (addToGroup_flatten_perm g r h).append_right rs
    simpa using h1.trans h2

/-- The flattened groups are a permutation of the input records. -/
lemma groupRecords_flatten_perm (records : List Record) :
    List.Perm ((groupRecords records).map Prod.snd).flatten records := by
  simpa using groupRecordsAux_flatten_perm records [] (by simp)

lemma groupRecords_members (records : List Record) :
    ∀ p ∈ groupRecords records, ∀ x ∈ p.2, groupKey x = p.1 :=
  groupRecordsAux_members records [] (by simp)

lemma groupRecords_nonempty (records : List Record) :
    ∀ p ∈ groupRecords records, p.2 ≠ [] :=
  groupRecordsAux_nonempty records [] (by simp)

lemma groupRecords_fst_nodup (records : List Record) :
    ((groupRecords records).map Prod.fst).Nodup :=
  groupRecordsAux_fst_nodup records [] (by simp)

/-- First occurrence of each key not yet seen, in order of first appearance:
the reference form of "distinct keys in first-seen order". -/
def firstSeen (seen : List GroupKey) : List GroupKey → List GroupKey
  | [] => []
  | k :: ks => if k ∈ seen then firstSeen seen ks else k :: firstSeen (seen ++ [k]) ks

lemma groupRecordsAux_fst_eq (rs : List Record) (g : List (GroupKey × List Record)) :
    (groupRecordsAux g rs).map Prod.fst =
      g.map Prod.fst ++ firstSeen (g.map Prod.fst) (rs.map groupKey) := by
  induction rs generalizing g with
  | nil => simp [groupRecordsAux, firstSeen]
  | cons r rs ih =>
    rw [groupRecordsAux, List.map_cons, firstSeen]
    by_cases hk : groupKey r ∈ g.map Prod.fst
    · rw [if_pos hk, ih, addToGroup_fst, if_pos hk]
    · rw [if_neg hk, ih, addToGroup_fst, if_neg hk]
      simp

/-- The group keys are exactly the distinct record keys in first-seen order. -/
lemma groupRecords_fst_eq (records : List Record) :
    (groupRecords records).map Prod.fst = firstSeen [] (records.map groupKey) := by
  simpa using groupRecordsAux_fst_eq records []

lemma mem_firstSeen (ks : List GroupKey) (seen : List GroupKey) (k : GroupKey) :
    k ∈ firstSeen seen ks ↔ k ∈ ks ∧ k ∉ seen := by
  induction ks generalizing seen with
  | nil => simp [firstSeen]
  | cons a ks ih =>
    rw [firstSeen]
    by_cases ha : a ∈ seen
    · rw [if_pos ha, ih]
      constructor
      · rintro ⟨h1, h2⟩
        exact ⟨List.mem_cons_of_mem _ h1, h2⟩
      · rintro ⟨h1, h2⟩
        rcases List.mem_cons.mp h1 with rfl | h1
        · exact absurd ha h2
        · exact ⟨h1, h2⟩
    · rw [if_neg ha, List.mem_cons, ih]
      constructor
      · rintro (rfl | ⟨h1, h2⟩)
        · exact ⟨List.mem_cons_self _ _, ha⟩
        · exact ⟨List.mem_cons_of_mem _ h1,
            fun hs => h2 (List.mem_append_left _ hs)⟩
      · rintro ⟨h1, h2⟩
        by_cases hka : k = a
        · exact Or.inl hka
        · rcases List.mem_cons.mp h1 with rfl | h1
          · exact Or.inl rfl
          · refine Or.inr ⟨h1, fun hc => ?_⟩
            rcases List.mem_append.mp hc with hc | hc
            · exact h2 hc
            · exact hka (by simpa using hc)

lemma nodup_firstSeen (ks : List GroupKey) (seen : List GroupKey) :
    (firstSeen seen ks).Nodup ∧ ∀ k ∈ firstSeen seen ks, k ∉ seen := by
  induction ks generalizing seen with
  | nil => simp [firstSeen]
  | cons a ks ih =>
    rw [firstSeen]
    by_cases ha : a ∈ seen
    · rw [if_pos ha]
      exact ih seen
    · rw [if_neg ha]
      obtain ⟨h1, h2⟩ := ih (seen ++ [a])
      refine ⟨List.nodup_cons.mpr ⟨fun hc => ?_, h1⟩, ?_⟩
      · exact (h2 a hc) (List.mem_append_right _ (by simp))
      · intro k hk
        rcases List.mem_cons.mp hk with rfl | hk
        · exact ha
        · exact fun hs => (h2 k hk) (List.mem_append_left _ hs)

lemma filterMap_merge (gs : List (GroupKey × List Record)) (h : ∀ p ∈ gs, p.2 ≠ []) :
    gs.filterMap (fun p => if p.2.isEmpty then none else some (mergeGroup p.2)) =
      gs.map (fun p => mergeGroup p.2) := by
  induction gs with
  | nil => rfl
  | cons p gs ih =>
    have ihr := ih (fun q hq => h q (List.mem_cons_of_mem _ hq))
    have hne : p.2.isEmpty = false := by
      simpa [List.isEmpty_iff] using h p (List.mem_cons_self _ _)
    rw [List.filterMap_cons, ihr, hne]
    rfl

/-- Since no group is empty, the merge is the map of `mergeGroup` over the
groups. -/
lemma merge_eq_map (records : List Record) :
    merge_pathology_records records =
      (groupRecords records).map (fun p => mergeGroup p.2) := by
  unfold merge_pathology_records
  exact filterMap_merge _ (groupRecords_nonempty records)

/-! ### Lemmas about the stable sort and the per-group merge -/

lemma pySorted_perm (g : List Record) : List.Perm (pySorted g) g :=
  List.perm_insertionSort recLe g

lemma pySorted_sorted (g : List Record) : (pySorted g).Sorted recLe :=
  List.sorted_insertionSort recLe g

/-- Stability of the sort: for every key value, the subsequence of members
with that key is exactly the original subsequence (equal keys keep their
original relative order). -/
lemma pySorted_filter (g : List Record) (k : Int × Int) :
    (pySorted g).filter (fun r => sort_key r == k) =
      g.filter (fun r => sort_key r == k) := by
  have hpair : (g.filter (fun r => sort_key r == k)).Pairwise recLe := by
    apply List.pairwise_of_forall_mem_list
    intro a ha b hb
    have ha' : sort_key a = k := by simpa using (List.mem_filter.mp ha).2
    have hb' : sort_key b = k := by simpa using (List.mem_filter.mp hb).2
    unfold recLe tupLe
    rw [ha', hb']
    omega
  have hsub : (g.filter (fun r => sort_key r == k)).Sublist (pySorted g) :=
    List.sublist_insertionSort hpair (List.filter_sublist g)
  have hsub2 : (g.filter (fun r => sort_key r == k)).Sublist
      ((pySorted g).filter (fun r => sort_key r == k)) := by
    have h2 := List.Sublist.filter (fun r => sort_key r == k) hsub
    rwa [List.filter_filter, show (fun a => (sort_key a == k) && (sort_key a == k)) =
      (fun a => sort_key a == k) from funext (fun a => Bool.and_self _)] at h2
  have hlen : (g.filter (fun r => sort_key r == k)).length =
      ((pySorted g).filter (fun r => sort_key r == k)).length :=
    ((List.Perm.filter _ (pySorted_perm g)).length_eq).symm
  exact (hsub2.eq_of_length hlen).symm

lemma pySorted_ne_nil (g : List Record) (h : g ≠ []) : pySorted g ≠ [] := by
  intro hc
  have hl := (pySorted_perm g).length_eq
  rw [hc] at hl
  exact h (List.length_eq_zero.mp hl.symm)

lemma headD_pySorted_mem (g : List Record) (h : g ≠ []) :
    (pySorted g).headD [] ∈ g := by
  have hne := pySorted_ne_nil g h
  have hmem : (pySorted g).headD [] ∈ pySorted g := by
    cases hs : pySorted g with
    | nil => exact absurd hs hne
    | cons x xs => simp
  exact (pySorted_perm g).mem_iff.mp hmem

lemma lookup_mergeGroup_valuetext (group : List Record) :
    (mergeGroup group).lookup "ValueText" =
      some (String.intercalate "\n"
        ((pySorted group).map (fun r => dictGet r "ValueText" ""))) := by
  unfold mergeGroup
  rw [lookup_dictPop_ne _ _ _ (by decide), lookup_dictPop_ne _ _ _ (by decide),
    lookup_dictInsert_self]

lemma lookup_mergeGroup_other (group : List Record) (f : String)
    (h1 : f ≠ "ValueText") (h2 : f ≠ "ConcatenationLine")
    (h3 : f ≠ "ConcatenationSubLine") :
    (mergeGroup group).lookup f = ((pySorted group).headD []).lookup f := by
  unfold mergeGroup
  rw [lookup_dictPop_ne _ _ _ h3, lookup_dictPop_ne _ _ _ h2,
    lookup_dictInsert_ne _ _ _ _ h1]

lemma lookup_mergeGroup_concat (group : List Record) :
    (mergeGroup group).lookup "ConcatenationLine" = none ∧
    (mergeGroup group).lookup "ConcatenationSubLine" = none := by
  unfold mergeGroup
  refine ⟨?_, lookup_dictPop_self _ _⟩
  rw [lookup_dictPop_ne _ _ _ (by decide)]
  exact lookup_dictPop_self _ _

lemma dictGet_mergeGroup_other (group : List Record) (f d : String)
    (h1 : f ≠ "ValueText") (h2 : f ≠ "ConcatenationLine")
    (h3 : f ≠ "ConcatenationSubLine") :
    dictGet (mergeGroup group) f d = dictGet ((pySorted group).headD []) f d := by
  unfold dictGet
  rw [lookup_mergeGroup_other group f h1 h2 h3]

/-- The merged record keeps the group key of the first member in sort order
(none of the five key fields is ValueText or a concatenation field). -/
lemma groupKey_mergeGroup (group : List Record) :
    groupKey (mergeGroup group) = groupKey ((pySorted group).headD []) := by
  unfold groupKey
  rw [dictGet_mergeGroup_other group _ _ (by decide) (by decide) (by decide),
    dictGet_mergeGroup_other group _ _ (by decide) (by decide) (by decide),
    dictGet_mergeGroup_other group _ _ (by decide) (by decide) (by decide),
    dictGet_mergeGroup_other group _ _ (by decide) (by decide) (by decide),
    dictGet_mergeGroup_other group _ _ (by decide) (by decide) (by decide)]

/-! ### Further helper lemmas -/

lemma process_directory_eq_flatten (files : List (Except String (List String)))
    (acc : List Record) :
    files.foldl (fun acc f => acc ++ (parse_note_file f).1) acc =
      acc ++ (files.map (fun f => (parse_note_file f).1)).flatten := by
  induction files generalizing acc with
  | nil => simp
  | cons f fs ih =>
    rw [List.foldl_cons, ih]
    simp

/-! ### The claims -/

/-- C7: whenever the parsed record sequence is empty (for example, an empty
input directory, which yields `process_directory [] = []`), both scripts' main
tails exit with a nonzero indication before any output file is opened, and no
output is written. -/
theorem claim_C7_empty_records_exit_nonzero :
    (∀ noMerge ext compact, mainPathology [] noMerge ext compact = .exitNoRecords ∧
      writesOutput (mainPathology [] noMerge ext compact) = false) ∧
    (∀ ext compact, mainEpic [] ext compact = .exitNoRecords ∧
      writesOutput (mainEpic [] ext compact) = false) ∧
    process_directory [] = [] :=
  ⟨fun _ _ _ => ⟨rfl, rfl⟩, fun _ _ => ⟨rfl, rfl⟩, rfl⟩

/-- C8: `parse_note_file` converts every failure into a warning plus the empty
record list — a read/decode failure yields exactly the read-error warning and
no records, a file with fewer than 2 lines yields exactly the too-few-lines
warning and no records — and `process_directory` of a file list containing a
failing file equals the concatenation of the other files' results (processing
continues). -/
theorem claim_C8_errors_degrade_to_empty :
    (∀ e, parse_note_file (.error e) = ([], [.readError e])) ∧
    (∀ lines, lines.length < 2 → parse_note_file (.ok lines) = ([], [.tooFewLines])) ∧
    (∀ pre post e, process_directory (pre ++ .error e :: post) =
      process_directory pre ++ process_directory post) := by
  refine ⟨fun e => rfl, fun lines hl => ?_, fun pre post e => ?_⟩
  · cases lines with
    | nil => rfl
    | cons l0 rest =>
      cases rest with
      | nil => rfl
      | cons l1 rest2 => simp at hl; omega
  · unfold process_directory
    rw [process_directory_eq_flatten, process_directory_eq_flatten,
      process_directory_eq_flatten]
    simp [parse_note_file]

/-- Witness for C8 at concrete inputs. -/
theorem claim_C8_witness :
    parse_note_file (.ok ["OnlyHeader"]) = ([], [.tooFewLines]) :=
  claim_C8_errors_degrade_to_empty.2.1 ["OnlyHeader"] (by decide)

/-- C9: duplicate header names are not deduplicated before zipping; in the
resulting record the duplicated name maps to the value at its last
occurrence's position (last value wins, earlier values are dropped).  `i` is
the index of the last occurrence of the name `n` among the headers; the row's
record is among the parsed records and maps `n` to the value at index `i`. -/
theorem claim_C9_duplicate_headers_last_value_wins
    (l0 line : String) (rest : List String)
    (hmem : line ∈ rest) (hnb : (pyStrip line).isEmpty = false)
    (i : Nat) (n : String)
    (hi : (splitTab (pyStrip l0)).get? i = some n)
    (hlast : ∀ j, i < j → (splitTab (pyStrip l0)).get? j ≠ some n) :
    dictOfPairs ((splitTab (pyStrip l0)).zip
        (reconcile (splitTab (pyStrip l0)) (splitTab (pyStrip line))))
      ∈ (parse_note_file (.ok (l0 :: rest))).1 ∧
    (dictOfPairs ((splitTab (pyStrip l0)).zip
        (reconcile (splitTab (pyStrip l0)) (splitTab (pyStrip line))))).lookup n =
      (reconcile (splitTab (pyStrip l0)) (splitTab (pyStrip line))).get? i := by
  constructor
  · cases rest with
    | nil => simp at hmem
    | cons l1 rest2 =>
      exact (parseRows_mem _ (l1 :: rest2) 2 line hmem hnb).1
  · rw [lookup_dictOfPairs]
    exact lookup_zip_reverse_last _ _ i n (reconcile_length _ _).symm hi hlast

/-- Witness for C9: header line `a<TAB>a`, data row `1<TAB>2`; the duplicated
name maps to the second value. -/
theorem claim_C9_witness :
    (dictOfPairs ((splitTab (pyStrip "a\ta")).zip
        (reconcile (splitTab (pyStrip "a\ta"))
          (splitTab (pyStrip "1\t2"))))).lookup "a" = some "2" := by
  have hsplit : (splitTab (pyStrip "a\ta")) = ["a", "a"] := by decide
  have h := claim_C9_duplicate_headers_last_value_wins "a\ta" "1\t2" ["1\t2"]
    (by decide) (by decide) 1 "a" (by decide)
    (by
      intro j hj hc
      rw [hsplit] at hc
      rcases j with _ | _ | j
      · omega
      · omega
      · simp [List.get?_cons_succ, List.get?_nil] at hc)
  rw [h.2]
  decide

/-- C6: for every data row whose tab-split value count differs from the header
count, a warning is emitted and the row still yields a record: too few values
are right-padded with empty strings up to the header count, too many are
truncated, and the resulting record's field set is exactly the header name
set.  (The parser is a total function, so no error is possible.) -/
theorem claim_C6_count_mismatch_reconciled
    (l0 line : String) (rest : List String)
    (hmem : line ∈ rest) (hnb : (pyStrip line).isEmpty = false)
    (hmm : (splitTab (pyStrip l0)).length ≠ (splitTab (pyStrip line)).length) :
    (∃ ln, ParseWarning.countMismatch ln (splitTab (pyStrip l0)).length
        (splitTab (pyStrip line)).length ∈ (parse_note_file (.ok (l0 :: rest))).2) ∧
    dictOfPairs ((splitTab (pyStrip l0)).zip
        (reconcile (splitTab (pyStrip l0)) (splitTab (pyStrip line))))
      ∈ (parse_note_file (.ok (l0 :: rest))).1 ∧
    ((splitTab (pyStrip line)).length < (splitTab (pyStrip l0)).length →
      reconcile (splitTab (pyStrip l0)) (splitTab (pyStrip line)) =
        (splitTab (pyStrip line)) ++ List.replicate
          ((splitTab (pyStrip l0)).length - (splitTab (pyStrip line)).length) "") ∧
    ((splitTab (pyStrip l0)).length < (splitTab (pyStrip line)).length →
      reconcile (splitTab (pyStrip l0)) (splitTab (pyStrip line)) =
        (splitTab (pyStrip line)).take (splitTab (pyStrip l0)).length) ∧
    (∀ f, f ∈ dictKeys (dictOfPairs ((splitTab (pyStrip l0)).zip
        (reconcile (splitTab (pyStrip l0)) (splitTab (pyStrip line))))) ↔
      f ∈ splitTab (pyStrip l0)) := by
  obtain ⟨l1, rest2, hrest⟩ : ∃ l1 rest2, rest = l1 :: rest2 := by
    cases rest with
    | nil => simp at hmem
    | cons a b => exact ⟨a, b, rfl⟩
  subst hrest
  have hpm := parseRows_mem (splitTab (pyStrip l0)) (l1 :: rest2) 2 line hmem hnb
  refine ⟨hpm.2 hmm, hpm.1, fun hlt => reconcile_of_lt _ _ hlt,
    fun hgt => reconcile_of_gt _ _ hgt, fun f => ?_⟩
  rw [dictKeys_dictOfPairs_mem]
  rw [List.map_fst_zip _ _ (le_of_eq (reconcile_length _ _).symm)]

/-- Witness for C6: header `a<TAB>b<TAB>c`, short row `1`, over-long row would
be symmetric; the short row is padded and keeps exactly the header fields. -/
theorem claim_C6_witness :
    (∃ ln, ParseWarning.countMismatch ln 3 1
        ∈ (parse_note_file (.ok ["a\tb\tc", "1"])).2) ∧
    reconcile (splitTab (pyStrip "a\tb\tc")) (splitTab (pyStrip "1")) =
      ["1", "", ""] := by
  have h := claim_C6_count_mismatch_reconciled "a\tb\tc" "1" ["1"]
    (by decide) (by decide) (by decide)
  constructor
  · have := h.1
    rwa [show (splitTab (pyStrip "a\tb\tc")).length = 3 from by decide,
      show (splitTab (pyStrip "1")).length = 1 from by decide] at this
  · rw [h.2.2.1 (by decide)]
    decide

/-- The defensive empty-group warning of the merge loop never fires: no group
is empty, so the merge emits no per-record diagnostic. -/
lemma merge_warnings_nil (records : List Record) : merge_warnings records = [] := by
  unfold merge_warnings
  have hfil : (groupRecords records).filter (fun p => p.2.isEmpty) = [] := by
    rw [List.filter_eq_nil_iff]
    intro p hp
    simpa [List.isEmpty_iff] using groupRecords_nonempty records p hp
  rw [hfil]
  rfl

/-- C5 counterexample: the claim as stated is false at concrete inputs.
A record missing ConcatenationLine but carrying ConcatenationSubLine "7" has
SortKey (0, 7), not (0, 0); and a record whose SortKey collapsed to (0, 0)
(ConcatenationLine "x") does not sort first in its group when another member
has the negative key (-1, 0). -/
theorem claim_C5_counterexample :
    ([("ConcatenationSubLine", "7")] : Record).lookup "ConcatenationLine" = none ∧
    sort_key [("ConcatenationSubLine", "7")] = (0, 7) ∧
    ((0 : Int), (7 : Int)) ≠ ((0 : Int), (0 : Int)) ∧
    sort_key [("ConcatenationLine", "x")] = (0, 0) ∧
    pySorted [[("ConcatenationLine", "x")], [("ConcatenationLine", "-1")]] =
      [[("ConcatenationLine", "-1")], [("ConcatenationLine", "x")]] := by
  refine ⟨by decide, by decide, by decide, by decide, by decide⟩

/-- C5 (amended): if ConcatenationLine or ConcatenationSubLine is present but
does not parse as an integer, the SortKey collapses to (0, 0); a missing field
defaults to "0" and so contributes 0 only to its own component; no diagnostic
is emitted by the merge; and a member with SortKey (0, 0) sorts before every
member with a strictly greater key (it may interleave with legitimately-zero
members, and members with negative keys sort before it). -/
theorem claim_C5_unparsable_sortkey (r : Record)
    (h : pyInt (dictGet r "ConcatenationLine" "0") = none ∨
         pyInt (dictGet r "ConcatenationSubLine" "0") = none) :
    sort_key r = (0, 0) ∧
    (∀ records, merge_warnings records = []) ∧
    (∀ r' : Record, r'.lookup "ConcatenationLine" = none →
      ∀ s, pyInt (dictGet r' "ConcatenationSubLine" "0") = some s →
        sort_key r' = (0, s)) ∧
    (∀ (g : List Record) (i j : Nat) (hi : i < (pySorted g).length)
        (hj : j < (pySorted g).length),
      sort_key ((pySorted g).get ⟨i, hi⟩) = (0, 0) →
      tupLt (0, 0) (sort_key ((pySorted g).get ⟨j, hj⟩)) → i < j) := by
  refine ⟨?_, merge_warnings_nil, ?_, ?_⟩
  · rcases h with h | h
    · cases hp : pyInt (dictGet r "ConcatenationSubLine" "0") <;>
        simp [sort_key, h, hp]
    · cases hp : pyInt (dictGet r "ConcatenationLine" "0") <;>
        simp [sort_key, h, hp]
  · intro r' hnone s hs
    have hdef : dictGet r' "ConcatenationLine" "0" = "0" := by
      unfold dictGet
      rw [hnone]
      rfl
    simp [sort_key, hdef, hs, show pyInt "0" = some 0 from rfl]
  · intro g i j hi hj h0 hlt
    have hp := List.pairwise_iff_get.mp (pySorted_sorted g)
    rcases Nat.lt_trichotomy i j with hij | hij | hij
    · exact hij
    · exfalso
      subst hij
      rw [h0] at hlt
      simp [tupLt] at hlt
    · exfalso
      have hle := hp ⟨j, hj⟩ ⟨i, hi⟩ (by simpa using hij)
      simp only [recLe] at hle
      rw [h0] at hle
      rcases hk : sort_key ((pySorted g).get ⟨j, hj⟩) with ⟨a, b⟩
      rw [hk] at hle hlt
      simp only [tupLe, tupLt] at hle hlt
      omega

/-- Witness for the amended C5 at a concrete record. -/
theorem claim_C5_witness :
    sort_key [("ConcatenationLine", "x"), ("ConcatenationSubLine", "3")] = (0, 0) :=
  (claim_C5_unparsable_sortkey
    [("ConcatenationLine", "x"), ("ConcatenationSubLine", "3")]
    (Or.inl (by decide))).1

/-- C2: within each group the members are ordered by SortKey ascending, ties
keep their original relative order (for every key value, the subsequence of
members with that key equals the original subsequence), and the merged
record's ValueText is the newline-join of every member's ValueText (with a
missing or empty ValueText contributing an empty line, via the default "") in
that order. -/
theorem claim_C2_merge_order_and_join (records : List Record)
    (p : GroupKey × List Record) (_hp : p ∈ groupRecords records) :
    (pySorted p.2).Sorted recLe ∧
    (∀ k, (pySorted p.2).filter (fun r => sort_key r == k) =
      p.2.filter (fun r => sort_key r == k)) ∧
    (mergeGroup p.2).lookup "ValueText" =
      some (String.intercalate "\n"
        ((pySorted p.2).map (fun r => dictGet r "ValueText" ""))) :=
  ⟨pySorted_sorted p.2, fun k => pySorted_filter p.2 k,
    lookup_mergeGroup_valuetext p.2⟩

/-- Witness for C2: two fragments arriving in reverse Concatenation order are
joined as "Part A\nPart B". -/
theorem claim_C2_witness :
    (mergeGroup [[("MRN", "1"), ("ConcatenationLine", "2"), ("ValueText", "Part B")],
      [("MRN", "1"), ("ConcatenationLine", "1"), ("ValueText", "Part A")]]).lookup
        "ValueText" = some "Part A\nPart B" := by
  have h := claim_C2_merge_order_and_join
    [[("MRN", "1"), ("ConcatenationLine", "2"), ("ValueText", "Part B")],
     [("MRN", "1"), ("ConcatenationLine", "1"), ("ValueText", "Part A")]]
    (("1", "", "", "", ""),
     [[("MRN", "1"), ("ConcatenationLine", "2"), ("ValueText", "Part B")],
      [("MRN", "1"), ("ConcatenationLine", "1"), ("ValueText", "Part A")]])
    (by decide)
  rw [h.2.2]
  decide

/-- C3: the merged record of every group is the first-in-sort-order member
with only ValueText replaced: ConcatenationLine and ConcatenationSubLine are
absent from its field set, and every other field looks up to exactly the first
member's value (later members' disagreeing values are discarded). -/
theorem claim_C3_merge_frame (records : List Record)
    (p : GroupKey × List Record) (_hp : p ∈ groupRecords records) :
    (mergeGroup p.2).lookup "ConcatenationLine" = none ∧
    (mergeGroup p.2).lookup "ConcatenationSubLine" = none ∧
    (∀ f, f ≠ "ValueText" → f ≠ "ConcatenationLine" → f ≠ "ConcatenationSubLine" →
      (mergeGroup p.2).lookup f = ((pySorted p.2).headD []).lookup f) :=
  ⟨(lookup_mergeGroup_concat p.2).1, (lookup_mergeGroup_concat p.2).2,
    fun f h1 h2 h3 => lookup_mergeGroup_other p.2 f h1 h2 h3⟩

/-- Witness for C3: the ordering fields are gone (even though present in the
inputs) and MRN comes from the first member in sort order. -/
theorem claim_C3_witness :
    (mergeGroup [[("MRN", "1"), ("ConcatenationLine", "2"), ("Status", "final")],
      [("MRN", "1"), ("ConcatenationLine", "1"), ("Status", "draft")]]).lookup
        "ConcatenationLine" = none ∧
    (mergeGroup [[("MRN", "1"), ("ConcatenationLine", "2"), ("Status", "final")],
      [("MRN", "1"), ("ConcatenationLine", "1"), ("Status", "draft")]]).lookup
        "Status" = some "draft" := by
  have h := claim_C3_merge_frame
    [[("MRN", "1"), ("ConcatenationLine", "2"), ("Status", "final")],
     [("MRN", "1"), ("ConcatenationLine", "1"), ("Status", "draft")]]
    (("1", "", "", "", ""),
     [[("MRN", "1"), ("ConcatenationLine", "2"), ("Status", "final")],
      [("MRN", "1"), ("ConcatenationLine", "1"), ("Status", "draft")]])
    (by decide)
  refine ⟨h.1, ?_⟩
  rw [h.2.2 "Status" (by decide) (by decide) (by decide)]
  decide

lemma nodup_fst_inj (l : List (GroupKey × List Record))
    (h : (l.map Prod.fst).Nodup) :
    ∀ p ∈ l, ∀ q ∈ l, p.1 = q.1 → p = q := by
  induction l with
  | nil => simp
  | cons a l ih =>
    rw [List.map_cons, List.nodup_cons] at h
    obtain ⟨hna, hnl⟩ := h
    intro p hp q hq he
    rcases List.mem_cons.mp hp with hpa | hpl <;> rcases List.mem_cons.mp hq with hqa | hql
    · rw [hpa, hqa]
    · exfalso
      apply hna
      rw [← hpa, he]
      exact List.mem_map_of_mem Prod.fst hql
    · exfalso
      apply hna
      rw [← hqa, ← he]
      exact List.mem_map_of_mem Prod.fst hpl
    · exact ih hnl p hpl q hql he

lemma groupRecords_member_mem (records : List Record) (p : GroupKey × List Record)
    (x : Record) (hp : p ∈ groupRecords records) (hx : x ∈ p.2) : x ∈ records := by
  have hperm := groupRecords_flatten_perm records
  have hxf : x ∈ ((groupRecords records).map Prod.snd).flatten :=
    List.mem_flatten.mpr ⟨p.2, List.mem_map_of_mem Prod.snd hp, hx⟩
  exact hperm.mem_iff.mp hxf

/-- C4: grouping is a partition of the input in first-seen key order.  The
flattened groups are a permutation of the input records; every input record
lies in exactly one group; the group keys are exactly the distinct GroupKeys
in order of first appearance (without duplicates, covering exactly the keys
that occur); and the merge outputs one record per distinct GroupKey. -/
theorem claim_C4_grouping_partition (records : List Record) :
    List.Perm ((groupRecords records).map Prod.snd).flatten records ∧
    (∀ r ∈ records, ∃! p, p ∈ groupRecords records ∧ r ∈ p.2) ∧
    (groupRecords records).map Prod.fst = firstSeen [] (records.map groupKey) ∧
    (firstSeen [] (records.map groupKey)).Nodup ∧
    (∀ k, k ∈ firstSeen [] (records.map groupKey) ↔ k ∈ records.map groupKey) ∧
    (merge_pathology_records records).length =
      (firstSeen [] (records.map groupKey)).length := by
  refine ⟨groupRecords_flatten_perm records, ?_, groupRecords_fst_eq records, ?_, ?_, ?_⟩
  · intro r hr
    have hrf : r ∈ ((groupRecords records).map Prod.snd).flatten :=
      (groupRecords_flatten_perm records).mem_iff.mpr hr
    obtain ⟨gl, hgl, hrgl⟩ := List.mem_flatten.mp hrf
    obtain ⟨p, hp, hpe⟩ := List.mem_map.mp hgl
    have hrp : r ∈ p.2 := (hpe.symm : gl = p.2) ▸ hrgl
    refine ⟨p, ⟨hp, hrp⟩, ?_⟩
    rintro q ⟨hq, hrq⟩
    apply nodup_fst_inj (groupRecords records) (groupRecords_fst_nodup records) q hq p hp
    exact (groupRecords_members records q hq r hrq).symm.trans
      (groupRecords_members records p hp r hrp)
  · exact (nodup_firstSeen (records.map groupKey) []).1
  · intro k
    rw [mem_firstSeen]
    simp
  · rw [merge_eq_map, List.length_map, ← groupRecords_fst_eq, List.length_map]

/-- Witness for C4 at a concrete record list with a repeated key. -/
theorem claim_C4_witness :
    ∃! p, p ∈ groupRecords
        [[("MRN", "1")], [("MRN", "2")], [("MRN", "1"), ("x", "y")]] ∧
      ([("MRN", "2")] : Record) ∈ p.2 :=
  (claim_C4_grouping_partition
    [[("MRN", "1")], [("MRN", "2")], [("MRN", "1"), ("x", "y")]]).2.1
    [("MRN", "2")] (by decide)

lemma nodup_get?_ne (l : List String) (h : l.Nodup) (i j : Nat) (hij : i ≠ j)
    (n : String) (hi : l.get? i = some n) : l.get? j ≠ some n := by
  intro hj
  obtain ⟨hi', hgi⟩ := List.get?_eq_some.mp hi
  obtain ⟨hj', hgj⟩ := List.get?_eq_some.mp hj
  have heq : l.get ⟨i, hi'⟩ = l.get ⟨j, hj'⟩ := by rw [hgi, hgj]
  have := (List.Nodup.get_inj_iff h).mp heq
  exact hij (by simpa using congrArg Fin.val this)

/-- C1 counterexample: the claim as stated fails when the header line repeats
a name.  For the file with header line `a<TAB>a` and data row `1<TAB>2`, every
data row splits into the header count (2 values), yet the record does not map
the 0-th header name "a" to the 0-th value "1": the duplicate header makes the
last value win. -/
theorem claim_C1_counterexample :
    (∀ line ∈ ["1\t2"], (pyStrip line).isEmpty = false →
      (splitTab (pyStrip line)).length = (splitTab (pyStrip "a\ta")).length) ∧
    (splitTab (pyStrip "a\ta")).get? 0 = some "a" ∧
    (splitTab (pyStrip "1\t2")).get? 0 = some "1" ∧
    (parse_note_file (.ok ["a\ta", "1\t2"])).1 = [[("a", "2")]] ∧
    ([("a", "2")] : Record).lookup "a" ≠ some "1" := by
  refine ⟨by decide, by decide, by decide, by decide, by decide⟩

/-- C1 (amended): for every file whose header names are pairwise distinct and
whose non-blank data rows all split into exactly the header count, parsing is
lossless: the records are exactly one zip-record per non-blank data row in
order, the record count equals the non-blank data row count, every record's
field set equals the header-name set, and each record maps the i-th header
name to the i-th tab-separated value of its row. -/
theorem claim_C1_wellformed_lossless (l0 : String) (rest : List String)
    (hwf : ∀ line ∈ rest, (pyStrip line).isEmpty = false →
      (splitTab (pyStrip line)).length = (splitTab (pyStrip l0)).length)
    (hnd : (splitTab (pyStrip l0)).Nodup) :
    (parse_note_file (.ok (l0 :: rest))).1 =
      (rest.filter (fun l => !(pyStrip l).isEmpty)).map
        (fun line => dictOfPairs ((splitTab (pyStrip l0)).zip
          (splitTab (pyStrip line)))) ∧
    (parse_note_file (.ok (l0 :: rest))).1.length =
      (rest.filter (fun l => !(pyStrip l).isEmpty)).length ∧
    (∀ r ∈ (parse_note_file (.ok (l0 :: rest))).1, ∀ n,
      n ∈ dictKeys r ↔ n ∈ splitTab (pyStrip l0)) ∧
    (∀ line ∈ rest, (pyStrip line).isEmpty = false →
      ∀ i n v, (splitTab (pyStrip l0)).get? i = some n →
        (splitTab (pyStrip line)).get? i = some v →
        (dictOfPairs ((splitTab (pyStrip l0)).zip
          (splitTab (pyStrip line)))).lookup n = some v) := by
  have hmain : (parse_note_file (.ok (l0 :: rest))).1 =
      (rest.filter (fun l => !(pyStrip l).isEmpty)).map
        (fun line => dictOfPairs ((splitTab (pyStrip l0)).zip
          (splitTab (pyStrip line)))) := by
    cases rest with
    | nil => rfl
    | cons l1 rest2 =>
      show (parseRows (splitTab (pyStrip l0)) (l1 :: rest2) 2).1 = _
      rw [parseRows_wellFormed (splitTab (pyStrip l0)) (l1 :: rest2) 2 hwf]
  refine ⟨hmain, by rw [hmain, List.length_map], ?_, ?_⟩
  · intro r hr n
    rw [hmain] at hr
    obtain ⟨line, hline, he⟩ := List.mem_map.mp hr
    have hlm := List.mem_filter.mp hline
    have hlen := hwf line hlm.1 (by simpa using hlm.2)
    rw [← he, dictKeys_dictOfPairs_mem,
      List.map_fst_zip _ _ (le_of_eq hlen.symm)]
  · intro line hline hnb i n v hin hiv
    have hlen := hwf line hline hnb
    rw [lookup_dictOfPairs,
      lookup_zip_reverse_last _ _ i n hlen.symm hin ?hlast, hiv]
    case hlast =>
      intro j hj
      exact nodup_get?_ne _ hnd i j (Nat.ne_of_lt hj) n hin

/-- Witness for the amended C1: a two-column file with one data row parses to
the expected single record. -/
theorem claim_C1_witness :
    (parse_note_file (.ok ["MRN\tValueText", "7\tHello"])).1 =
      [[("MRN", "7"), ("ValueText", "Hello")]] := by
  have h := claim_C1_wellformed_lossless "MRN\tValueText" ["7\tHello"]
    (by decide) (by decide)
  rw [h.1]
  decide

/-! ### Idempotence of the merge -/

lemma mergeGroup_keys_nodup (group : List Record) (hne : group ≠ [])
    (h : ∀ r ∈ group, (dictKeys r).Nodup) : (dictKeys (mergeGroup group)).Nodup := by
  unfold mergeGroup
  apply nodup_dictKeys_dictPop
  apply nodup_dictKeys_dictPop
  apply nodup_dictKeys_dictInsert
  exact h _ (headD_pySorted_mem group hne)

/-- Each merged record carries its group's key. -/
lemma merge_groupKeys (records : List Record) :
    (merge_pathology_records records).map groupKey =
      (groupRecords records).map Prod.fst := by
  rw [merge_eq_map, List.map_map]
  apply List.map_congr_left
  intro p hp
  have hne := groupRecords_nonempty records p hp
  have hhead := headD_pySorted_mem p.2 hne
  show groupKey (mergeGroup p.2) = p.1
  rw [groupKey_mergeGroup, groupRecords_members records p hp _ hhead]

/-- Every record output by the merge has unique keys, a present ValueText, and
no concatenation fields. -/
lemma merge_output_props (records : List Record)
    (h : ∀ r ∈ records, (dictKeys r).Nodup) :
    ∀ r ∈ merge_pathology_records records,
      (dictKeys r).Nodup ∧ (∃ v, r.lookup "ValueText" = some v) ∧
      r.lookup "ConcatenationLine" = none ∧
      r.lookup "ConcatenationSubLine" = none := by
  intro r hr
  rw [merge_eq_map] at hr
  obtain ⟨p, hp, he⟩ := List.mem_map.mp hr
  have hne := groupRecords_nonempty records p hp
  refine ⟨?_, ?_, ?_, ?_⟩
  · rw [← he]
    exact mergeGroup_keys_nodup p.2 hne
      (fun x hx => h x (groupRecords_member_mem records p x hp hx))
  · exact ⟨_, he ▸ lookup_mergeGroup_valuetext p.2⟩
  · exact he ▸ (lookup_mergeGroup_concat p.2).1
  · exact he ▸ (lookup_mergeGroup_concat p.2).2

/-- Grouping a list whose records have pairwise distinct keys yields singleton
groups, in order. -/
lemma groupRecordsAux_of_nodup_keys (rs : List Record)
    (g : List (GroupKey × List Record))
    (hnew : ∀ r ∈ rs, groupKey r ∉ g.map Prod.fst)
    (hnd : (rs.map groupKey).Nodup) :
    groupRecordsAux g rs = g ++ rs.map (fun r => (groupKey r, [r])) := by
  induction rs generalizing g with
  | nil => simp [groupRecordsAux]
  | cons r rs ih =>
    rw [groupRecordsAux]
    have hkr : groupKey r ∉ g.map Prod.fst := hnew r (List.mem_cons_self _ _)
    have hadd : addToGroup g r = g ++ [(groupKey r, [r])] := by
      unfold addToGroup
      rw [if_neg (fun hc => hkr ((any_groupkey_iff g (groupKey r)).mp hc))]
    rw [List.map_cons] at hnd
    obtain ⟨hnr, hnds⟩ := List.nodup_cons.mp hnd
    rw [hadd, ih (g ++ [(groupKey r, [r])]) ?hnew2 hnds]
    · simp
    case hnew2 =>
      intro r' hr' hc
      rw [List.map_append] at hc
      rcases List.mem_append.mp hc with hc | hc
      · exact hnew r' (List.mem_cons_of_mem _ hr') hc
      · have hce : groupKey r' = groupKey r := by simpa using hc
        exact hnr (hce ▸ List.mem_map_of_mem groupKey hr')

/-- Merging a singleton group of a record with unique keys, a present
ValueText, and no concatenation fields returns the record unchanged. -/
lemma mergeGroup_singleton (r : Record) (v : String)
    (hnd : (dictKeys r).Nodup) (hv : r.lookup "ValueText" = some v)
    (hcl : r.lookup "ConcatenationLine" = none)
    (hcsl : r.lookup "ConcatenationSubLine" = none) :
    mergeGroup [r] = r := by
  unfold mergeGroup
  have hs : pySorted [r] = [r] := rfl
  rw [hs]
  show dictPop (dictPop (dictInsert r "ValueText"
    (String.intercalate "\n" [dictGet r "ValueText" ""])) "ConcatenationLine")
    "ConcatenationSubLine" = r
  have hint : String.intercalate "\n" [dictGet r "ValueText" ""] =
      dictGet r "ValueText" "" := rfl
  have hget : dictGet r "ValueText" "" = v := by
    unfold dictGet
    rw [hv]
    rfl
  rw [hint, hget, dictInsert_eq_self r _ _ hnd hv, dictPop_eq_self _ _ hcl,
    dictPop_eq_self _ _ hcsl]

/-- C10: `merge_pathology_records` is idempotent on every record list whose
records satisfy the dict representation invariant (unique keys, true of every
Python dict): each merged record inherits its group's distinct GroupKey, so
re-merging forms only singleton groups, and re-joining a singleton's ValueText
and popping the already-absent ordering fields are identities. -/
theorem claim_C10_merge_idempotent (records : List Record)
    (h : ∀ r ∈ records, (dictKeys r).Nodup) :
    merge_pathology_records (merge_pathology_records records) =
      merge_pathology_records records := by
  have hprops := merge_output_props records h
  have hknd : ((merge_pathology_records records).map groupKey).Nodup := by
    rw [merge_groupKeys]
    exact groupRecords_fst_nodup records
  have hgroups : groupRecords (merge_pathology_records records) =
      (merge_pathology_records records).map (fun r => (groupKey r, [r])) := by
    unfold groupRecords
    rw [groupRecordsAux_of_nodup_keys _ [] (by simp) hknd]
    simp
  rw [merge_eq_map (merge_pathology_records records), hgroups, List.map_map]
  conv_rhs => rw [← List.map_id (merge_pathology_records records)]
  apply List.map_congr_left
  intro r hr
  obtain ⟨hnd, ⟨v, hv⟩, hcl, hcsl⟩ := hprops r hr
  show mergeGroup [r] = r
  exact mergeGroup_singleton r v hnd hv hcl hcsl

/-- Witness for C10: two fragments merging into one record, merged again,
stay fixed. -/
theorem claim_C10_witness :
    merge_pathology_records (merge_pathology_records
      [[("MRN", "1"), ("ValueText", "A")], [("MRN", "1"), ("ValueText", "B")]]) =
      merge_pathology_records
      [[("MRN", "1"), ("ValueText", "A")], [("MRN", "1"), ("ValueText", "B")]] :=
  claim_C10_merge_idempotent
    [[("MRN", "1"), ("ValueText", "A")], [("MRN", "1"), ("ValueText", "B")]]
    (by decide)

end EpicNotes
